import Mathlib

/-!
Verification of the PureMVC Go standard framework's notification registry and
dispatch core (View, Controller, Model, Observer, MacroCommand) against its
natural-language specification.

The Go code is shallowly embedded as follows.

* Heap references (Go interface values holding pointers) are `Nat` tokens; an
  `Obs` pairs such a token (`ctx`, the Go `Context` field) with a callback.
* Go maps keyed by `string` are association lists with `lookupA` / `setA` /
  `eraseA`; only per-key access is ever used by the source, never iteration,
  so the association-list view is exact.
* A Go slice stored in `observerMap` is represented by the list of elements
  visible through the map's slice header.  `View.RemoveObserver` in
  `View.go` mutates a local slice obtained from the map with
  `observers = append(observers[:index], observers[index+1:]...)` and never
  stores the shortened header back: the backing array shared with the map's
  header is shifted in place while the map's length stays `n`.  The value the
  map then exposes is `removeAt s index ++ s.drop (s.length - 1)` (the shifted
  prefix followed by the stale copy of the old last element), and that exact
  view is what `removeObserver` below computes.
* Callbacks are a small closed syntax `Cb`: an opaque application handler that
  only emits an event (`emit`), the Controller's `ExecuteCommand` dispatch
  routine (`dispatch`), or a listener program of registry mutations (`prog`),
  so reentrant mutation of the registries during a broadcast is representable.
  Nested broadcasts from inside a callback are not modelled.
* Lifecycle callbacks (`OnRegister`, `OnRemove`) and command bodies are
  likewise registry-mutation programs; invocations are recorded as events.
* The mutex discipline of `NotifyObservers` and `ExecuteCommand` is modelled
  separately as lock-event traces (`notifyObserversLockTrace`,
  `executeCommandLockTrace`) that record, in program order, the acquire and
  release calls and the points where the code hands control to foreign
  callbacks.
-/

namespace PureMVC

/-- `Notification.go`: an immutable value with a name, an opaque body
(modelled as `Nat`) and a type tag. -/
structure Notification where
  name : String
  body : Nat
  kind : String

mutual

/-- The callback stored in an Observer's `Notify` field. -/
inductive Cb : Type where
  | emit : Nat → Cb
  | dispatch : Cb
  | prog : List Act → Cb

/-- A registry mutation a callback may perform when invoked (callbacks may
re-enter the View and register or remove observers). -/
inductive Act : Type where
  | regObs : String → Nat → Cb → Act
  | remObs : String → Nat → Act

end

/-- `Observer.go`: the `Notify` callback together with the `Context`
reference token used for removal comparison. -/
structure Obs where
  ctx : Nat
  cb : Cb

/-- Observable happenings during an operation: an observer being handed the
notification by the broadcast loop, a command instance's `Execute` running,
an application handler firing, and lifecycle hooks. -/
inductive Event where
  | invoked : Obs → Event
  | cmdRun : Nat → String → Event
  | emitted : Nat → String → Event
  | onRegisterMed : Nat → Event
  | onRemoveMed : Nat → Event
  | onRegisterProxy : Nat → Event

/-- Go map read `m[k]` (returns the zero value `none` when absent). -/
def lookupA {α : Type} : List (String × α) → String → Option α
  | [], _ => none
  | (k, v) :: t, key => if k = key then some v else lookupA t key

/-- Go map write `m[k] = v`. -/
def setA {α : Type} : List (String × α) → String → α → List (String × α)
  | [], key, v => [(key, v)]
  | (k, w) :: t, key, v => if k = key then (key, v) :: t else (k, w) :: setA t key v

/-- Go `delete(m, k)`. -/
def eraseA {α : Type} : List (String × α) → String → List (String × α)
  | [], _ => []
  | (k, w) :: t, key => if k = key then eraseA t key else (k, w) :: eraseA t key

/-- `Observer.CompareNotifyContext`: `object == self.Context`, Go interface
equality on the stored reference. -/
def compareNotifyContext (o : Obs) (object : Nat) : Bool :=
  object == o.ctx

/-- The observer lists as seen through the `observerMap`. -/
abbrev ObsMap := List (String × List Obs)

/-- `View.RegisterObserver`: append to the existing list, or create a fresh
one-element list when the name is absent. -/
def registerObserver (m : ObsMap) (notificationName : String) (o : Obs) : ObsMap :=
  match lookupA m notificationName with
  | some l => setA m notificationName (l ++ [o])
  | none => setA m notificationName [o]

/-- The `for index, observer := range observers` search with `break` at the
first `CompareNotifyContext` match in `View.RemoveObserver`. -/
def findObsIdx (l : List Obs) (notifyContext : Nat) : Option Nat :=
  match l with
  | [] => none
  | o :: t =>
    if compareNotifyContext o notifyContext then some 0
    else (findObsIdx t notifyContext).map (fun i => i + 1)

/-- Dropping the element at an index (the shifted content of the prefix the
local `append` in `View.RemoveObserver` produces). -/
def removeAt : List Obs → Nat → List Obs
  | [], _ => []
  | _ :: t, 0 => t
  | o :: t, n + 1 => o :: removeAt t n

/-- `View.RemoveObserver`.  The Go code shifts the backing array in place via
`append(observers[:index], observers[index+1:]...)` but never assigns the
shortened slice back into `observerMap`, so on a match the map's view becomes
the shifted prefix plus a stale duplicate of the old last element
(`removeAt observers index ++ observers.drop (observers.length - 1)`), and the
key is deleted only when the local (shortened) length reaches zero. -/
def removeObserver (m : ObsMap) (notificationName : String) (notifyContext : Nat) : ObsMap :=
  let observers := (lookupA m notificationName).getD []
  match findObsIdx observers notifyContext with
  | some index =>
    if observers.length - 1 = 0 then
      eraseA m notificationName
    else
      setA m notificationName
        (removeAt observers index ++ observers.drop (observers.length - 1))
  | none =>
    if observers.length = 0 then eraseA m notificationName else m

/-- Removal as `View.RemoveObserver`'s documentation and the spec describe it:
the first matching observer is dropped from the stored list, and the key is
deleted when the list becomes empty.  Stated from the spec's words, for
comparison with `removeObserver`. -/
def removeObserverSpec (m : ObsMap) (notificationName : String) (notifyContext : Nat) : ObsMap :=
  let observers := (lookupA m notificationName).getD []
  let remaining :=
    match findObsIdx observers notifyContext with
    | some index => removeAt observers index
    | none => observers
  if remaining.length = 0 then eraseA m notificationName
  else setA m notificationName remaining

/-- The observer list the map currently exposes for a name. -/
def listAt (m : ObsMap) (key : String) : List Obs :=
  (lookupA m key).getD []

/-- Run a listener program of registry mutations against the observer map. -/
def runActs : ObsMap → List Act → ObsMap
  | m, [] => m
  | m, Act.regObs name ctx cb :: rest => runActs (registerObserver m name ⟨ctx, cb⟩) rest
  | m, Act.remObs name ctx :: rest => runActs (removeObserver m name ctx) rest

/-- An `IMediator` implementor: registry name, the reference token the View
uses as the observer's `Context`, the interests `ListNotificationInterests`
currently reports, the `HandleNotification` callback and the two lifecycle
programs. -/
structure Mediator where
  name : String
  ctx : Nat
  interests : List String
  handler : Cb
  onReg : List Act
  onRem : List Act

/-- The observer `View.RegisterMediator` builds for a mediator:
`&Observer{Notify: mediator.HandleNotification, Context: mediator}`. -/
def mediatorObserver (m : Mediator) : Obs :=
  ⟨m.ctx, m.handler⟩

/-- The View's two maps (`View.go`). -/
structure ViewState where
  mediatorMap : List (String × Mediator)
  observerMap : ObsMap

/-- `View.RegisterMediator`: a silent no-op when the name is taken; otherwise
store the mediator, register one shared observer under each declared
interest, then fire `OnRegister` (`InitializeNotifier` is modelled as a
no-op). -/
def registerMediator (v : ViewState) (mediator : Mediator) : ViewState × List Event :=
  match lookupA v.mediatorMap mediator.name with
  | some _ => (v, [])
  | none =>
    let mm := setA v.mediatorMap mediator.name mediator
    let om := mediator.interests.foldl
      (fun acc interest => registerObserver acc interest (mediatorObserver mediator)) v.observerMap
    (⟨mm, runActs om mediator.onReg⟩, [Event.onRegisterMed mediator.ctx])

/-- `View.RetrieveMediator`. -/
def retrieveMediator (v : ViewState) (mediatorName : String) : Option Mediator :=
  lookupA v.mediatorMap mediatorName

/-- `View.RemoveMediator`: look the mediator up, call `RemoveObserver` for
each interest `ListNotificationInterests` reports now, delete the map entry,
fire `OnRemove`, and return the mediator (`none` when it was absent). -/
def removeMediator (v : ViewState) (mediatorName : String) :
    ViewState × List Event × Option Mediator :=
  match lookupA v.mediatorMap mediatorName with
  | none => (v, [], none)
  | some mediator =>
    let om := mediator.interests.foldl
      (fun acc interest => removeObserver acc interest mediator.ctx) v.observerMap
    (⟨eraseA v.mediatorMap mediatorName, runActs om mediator.onRem⟩,
      [Event.onRemoveMed mediator.ctx], some mediator)

/-- Models in-place mutation of the registered mediator object through the
shared reference the map stores: `ListNotificationInterests` is a method of
the stored object, so the list it reports can change between registration and
removal.  A no-op when no mediator of that name is registered. -/
def setMediatorInterests (v : ViewState) (mediatorName : String)
    (interests : List String) : ViewState :=
  match lookupA v.mediatorMap mediatorName with
  | none => v
  | some m =>
    { v with mediatorMap := setA v.mediatorMap mediatorName { m with interests := interests } }

/-- An `ICommand` factory entry: a label identifying which factory built the
handler, and the handler body as a registry-mutation program. -/
structure Cmd where
  label : Nat
  body : List Act

/-- The Controller's `commandMap` (`Controller.go`). -/
structure ControllerState where
  commandMap : List (String × Cmd)

/-- An `IProxy` implementor: registry name and reference token. -/
structure Proxy where
  name : String
  ref : Nat

/-- The Model's `proxyMap` (`Model.go`). -/
structure ModelState where
  proxyMap : List (String × Proxy)

/-- The three singletons together. -/
structure SysState where
  view : ViewState
  ctrl : ControllerState
  mdl : ModelState

/-- The `Context` the Controller passes when registering or removing its own
observer: the Controller singleton's reference. -/
def controllerCtx : Nat := 0

/-- `Controller.ExecuteCommand`: look up the factory for the notification's
name; absent is a no-op; otherwise build a fresh handler (recorded as a
`cmdRun` event) and run it (`InitializeNotifier` is modelled as a no-op). -/
def executeCommand (s : SysState) (notification : Notification) : SysState × List Event :=
  match lookupA s.ctrl.commandMap notification.name with
  | none => (s, [])
  | some c =>
    ({ s with view := { s.view with observerMap := runActs s.view.observerMap c.body } },
      [Event.cmdRun c.label notification.name])

/-- `Observer.NotifyObserver`: hand the notification to the stored callback. -/
def notifyObserver (s : SysState) (o : Obs) (notification : Notification) :
    SysState × List Event :=
  match o.cb with
  | Cb.emit n => (s, [Event.emitted n notification.name])
  | Cb.dispatch => executeCommand s notification
  | Cb.prog acts =>
    ({ s with view := { s.view with observerMap := runActs s.view.observerMap acts } }, [])

/-- The notification loop of `View.NotifyObservers` over the snapshot copy;
each `invoked` event marks the loop handing the notification to one
observer of the snapshot, followed by whatever that callback does. -/
def notifyLoop : SysState → List Obs → Notification → SysState × List Event
  | s, [], _ => (s, [])
  | s, o :: rest, notification =>
    let r1 := notifyObserver s o notification
    let r2 := notifyLoop r1.1 rest notification
    (r2.1, Event.invoked o :: (r1.2 ++ r2.2))

/-- `View.NotifyObservers`: copy the observer list for the notification's
name into a working array under the read lock, release it, then notify from
the working array. -/
def notifyObservers (s : SysState) (notification : Notification) : SysState × List Event :=
  notifyLoop s (listAt s.view.observerMap notification.name) notification

/-- `Controller.RegisterCommand`: register the Controller's dispatch observer
with the View only when the name has no factory yet, then (always) store the
factory. -/
def registerCommand (s : SysState) (notificationName : String) (c : Cmd) : SysState :=
  let s1 :=
    match lookupA s.ctrl.commandMap notificationName with
    | none =>
      { s with view :=
          { s.view with observerMap :=
              registerObserver s.view.observerMap notificationName ⟨controllerCtx, Cb.dispatch⟩ } }
    | some _ => s
  { s1 with ctrl := ⟨setA s1.ctrl.commandMap notificationName c⟩ }

/-- `Controller.RemoveCommand`: when a factory is registered, remove the
Controller's observer from the View and delete the factory entry. -/
def removeCommand (s : SysState) (notificationName : String) : SysState :=
  match lookupA s.ctrl.commandMap notificationName with
  | none => s
  | some _ =>
    let s1 :=
      { s with view :=
          { s.view with observerMap :=
              removeObserver s.view.observerMap notificationName controllerCtx } }
    { s1 with ctrl := ⟨eraseA s1.ctrl.commandMap notificationName⟩ }

/-- `Model.RegisterProxy`: `InitializeNotifier` (a no-op here), an
unconditional store overwriting any previous proxy of that name, then the new
proxy's `OnRegister`. -/
def registerProxy (m : ModelState) (proxy : Proxy) : ModelState × List Event :=
  (⟨setA m.proxyMap proxy.name proxy⟩, [Event.onRegisterProxy proxy.ref])

/-- `MacroCommand.go`: the `SubCommands` list of factories. -/
structure MacroCommand where
  subCommands : List Cmd

/-- `MacroCommand.AddSubCommand`: append a factory (FIFO). -/
def addSubCommand (mc : MacroCommand) (factory : Cmd) : MacroCommand :=
  ⟨mc.subCommands ++ [factory]⟩

/-- The drain loop of `MacroCommand.Execute`: while the list is nonempty,
pop the head factory, build a fresh sub-command and execute it with the same
notification.  Returns the final (drained) list and the execution events. -/
def macroCommandLoop : List Cmd → Notification → List Cmd × List Event
  | [], _ => ([], [])
  | factory :: rest, notification =>
    let r := macroCommandLoop rest notification
    (r.1, Event.cmdRun factory.label notification.name :: r.2)

/-- `MacroCommand.Execute`: `InitializeMacroCommand` (whose body on the base
type is empty) followed by the drain loop. -/
def macroCommandExecute (mc : MacroCommand) (notification : Notification) :
    MacroCommand × List Event :=
  let r := macroCommandLoop mc.subCommands notification
  (⟨r.1⟩, r.2)

/-- A lock-related step of an operation, in program order: acquire or release
of a named RWMutex in read or write mode, or control passing to a foreign
callback. -/
inductive LockEv where
  | acqR : String → LockEv
  | acqW : String → LockEv
  | relR : String → LockEv
  | relW : String → LockEv
  | callbackCall : String → LockEv

/-- Checks that every `callbackCall` in the trace happens while the running
operation holds no lock (`d` counts locks currently held). -/
def lockDepthOk : Nat → List LockEv → Bool
  | _, [] => true
  | d, LockEv.acqR _ :: t => lockDepthOk (d + 1) t
  | d, LockEv.acqW _ :: t => lockDepthOk (d + 1) t
  | d, LockEv.relR _ :: t => lockDepthOk (d - 1) t
  | d, LockEv.relW _ :: t => lockDepthOk (d - 1) t
  | d, LockEv.callbackCall _ :: t => (d == 0) && lockDepthOk d t

/-- No foreign callback runs while the operation holds a registry lock. -/
def noCallbackUnderLock (t : List LockEv) : Bool :=
  lockDepthOk 0 t

/-- The lock trace of `View.NotifyObservers`: `RLock`, copy the list,
`RUnlock`, then invoke each snapshot observer outside the lock. -/
def notifyObserversLockTrace (s : SysState) (notification : Notification) : List LockEv :=
  [LockEv.acqR "observerMapMutex", LockEv.relR "observerMapMutex"]
    ++ (listAt s.view.observerMap notification.name).map
        (fun _ => LockEv.callbackCall "Observer.NotifyObserver")

/-- The lock trace of `Controller.ExecuteCommand`: `RLock` with a deferred
`RUnlock`, so when a factory is registered the handler's `Execute` runs
strictly between the acquire and the release. -/
def executeCommandLockTrace (s : SysState) (notification : Notification) : List LockEv :=
  LockEv.acqR "commandMapMutex"
    :: ((match lookupA s.ctrl.commandMap notification.name with
        | none => []
        | some _ => [LockEv.callbackCall "ICommand.Execute"])
      ++ [LockEv.relR "commandMapMutex"])

/-- One caller-level operation of the Interest Registry, as in the claim
about its invariant. -/
inductive Oper where
  | regObs : String → Nat → Cb → Oper
  | remObs : String → Nat → Oper
  | notify : Notification → Oper
  | regMed : Mediator → Oper
  | remMed : String → Oper

/-- Apply one operation to the system state. -/
def applyOper (s : SysState) : Oper → SysState
  | Oper.regObs name ctx cb =>
    { s with view :=
        { s.view with observerMap := registerObserver s.view.observerMap name ⟨ctx, cb⟩ } }
  | Oper.remObs name ctx =>
    { s with view :=
        { s.view with observerMap := removeObserver s.view.observerMap name ctx } }
  | Oper.notify notification => (notifyObservers s notification).1
  | Oper.regMed m => { s with view := (registerMediator s.view m).1 }
  | Oper.remMed name => { s with view := (removeMediator s.view name).1 }

/-- Run a finite sequence of operations. -/
def runOpers : SysState → List Oper → SysState
  | s, [] => s
  | s, op :: rest => runOpers (applyOper s op) rest

/-- The freshly initialized state: `InitializeView`, `InitializeController`
and `InitializeModel` all start from empty maps. -/
def initSys : SysState :=
  ⟨⟨[], []⟩, ⟨[]⟩, ⟨[]⟩⟩

/-- Every entry of the observer map holds a nonempty observer list. -/
def noEmptyVals : ObsMap → Bool
  | [] => true
  | e :: t => !e.2.isEmpty && noEmptyVals t

/-- The observers a broadcast's event trace hands the notification to, in
order. -/
def invokedObservers (evs : List Event) : List Obs :=
  evs.filterMap (fun e => match e with | Event.invoked o => some o | _ => none)

/-- The factory labels of the command executions in an event trace. -/
def commandRunLabels (evs : List Event) : List Nat :=
  evs.filterMap (fun e => match e with | Event.cmdRun l _ => some l | _ => none)

/-- An observer with reference token 1. -/
def obsOne : Obs := ⟨1, Cb.emit 1⟩

/-- An observer with reference token 2. -/
def obsTwo : Obs := ⟨2, Cb.emit 2⟩

/-- The mediator of the C6 failing input: reference token 1, interested in
"A". -/
def mediatorC6 : Mediator := ⟨"M", 1, ["A"], Cb.emit 1, [], []⟩

/-- A foreign observer ahead of the mediator's in the "A" list. -/
def otherObsC6 : Obs := ⟨5, Cb.emit 5⟩

/-- The C6 failing input: the mediator is registered, and the "A" observer
list holds a foreign observer first and the mediator's observer last. -/
def viewC6 : ViewState := ⟨[("M", mediatorC6)], [("A", [otherObsC6, mediatorObserver mediatorC6])]⟩

/-- A system state with a command already registered under "X". -/
def sysCmdX : SysState := ⟨⟨[], []⟩, ⟨[("X", ⟨1, []⟩)]⟩, ⟨[]⟩⟩

/-- A mediator named "M" with reference token 1. -/
def mediatorM1 : Mediator := ⟨"M", 1, ["A"], Cb.emit 1, [], []⟩

/-- A second mediator also named "M", reference token 2. -/
def mediatorM2 : Mediator := ⟨"M", 2, ["B"], Cb.emit 2, [], []⟩

/-- A view in which `mediatorM1` is registered under "M". -/
def viewWithM1 : ViewState := ⟨[("M", mediatorM1)], [("A", [mediatorObserver mediatorM1])]⟩

/-- Two distinct listener objects carrying identical data: same name, same
interests, same callback behavior, different references. -/
def twinA : Mediator := ⟨"T", 10, ["A"], Cb.emit 4, [], []⟩

/-- The twin of `twinA` under a different reference. -/
def twinB : Mediator := ⟨"T", 11, ["A"], Cb.emit 4, [], []⟩

/-- A system state holding a command under "X", and the notification "X":
here `Controller.ExecuteCommand` reaches a foreign `Execute`. -/
def sysC9 : SysState := ⟨⟨[], []⟩, ⟨[("X", ⟨7, []⟩)]⟩, ⟨[]⟩⟩

/-- The notification driving the C9 counterexample. -/
def noteC9 : Notification := ⟨"X", 0, ""⟩

/-- A mediator registered as interested in "A" whose reported interests later
change to ["B"]. -/
def medC10 : Mediator := ⟨"M", 3, ["A"], Cb.emit 9, [], []⟩

theorem lookupA_setA_self {α : Type} (m : List (String × α)) (k : String) (v : α) :
    lookupA (setA m k v) k = some v := by
  induction m with
  | nil => simp [setA, lookupA]
  | cons e t ih =>
    obtain ⟨a, b⟩ := e
    by_cases h : a = k
    · simp [setA, h, lookupA]
    · simp [setA, h, lookupA, ih]

theorem lookupA_setA_ne {α : Type} (m : List (String × α)) (k k' : String) (v : α)
    (h : k' ≠ k) : lookupA (setA m k v) k' = lookupA m k' := by
  have hk : ¬k = k' := fun hh => h hh.symm
  induction m with
  | nil => simp [setA, lookupA, hk]
  | cons e t ih =>
    obtain ⟨a, b⟩ := e
    by_cases he : a = k
    · subst he
      simp [setA, lookupA, hk]
    · simp only [setA, he, if_false, lookupA]
      by_cases he' : a = k'
      · simp [he']
      · simp [he', ih]

theorem lookupA_eraseA_self {α : Type} (m : List (String × α)) (k : String) :
    lookupA (eraseA m k) k = none := by
  induction m with
  | nil => simp [eraseA, lookupA]
  | cons e t ih =>
    obtain ⟨a, b⟩ := e
    by_cases h : a = k
    · simp [eraseA, h, ih]
    · simp [eraseA, h, lookupA, ih]

theorem lookupA_eraseA_ne {α : Type} (m : List (String × α)) (k k' : String)
    (h : k' ≠ k) : lookupA (eraseA m k) k' = lookupA m k' := by
  induction m with
  | nil => simp [eraseA]
  | cons e t ih =>
    obtain ⟨a, b⟩ := e
    by_cases he : a = k
    · subst he
      have : ¬a = k' := fun hh => h hh.symm
      simp [eraseA, lookupA, this, ih]
    · simp only [eraseA, he, if_false, lookupA]
      by_cases he' : a = k'
      · simp [he']
      · simp [he', ih]

theorem invokedObservers_append (a b : List Event) :
    invokedObservers (a ++ b) = invokedObservers a ++ invokedObservers b := by
  simp [invokedObservers]

theorem executeCommand_no_invoked (s : SysState) (n : Notification) :
    invokedObservers (executeCommand s n).2 = [] := by
  unfold executeCommand
  cases lookupA s.ctrl.commandMap n.name <;> simp [invokedObservers]

theorem notifyObserver_no_invoked (s : SysState) (o : Obs) (n : Notification) :
    invokedObservers (notifyObserver s o n).2 = [] := by
  unfold notifyObserver
  cases o.cb with
  | emit k => simp [invokedObservers]
  | dispatch => exact executeCommand_no_invoked s n
  | prog acts => simp [invokedObservers]

theorem notifyLoop_invoked (l : List Obs) :
    ∀ (s : SysState) (n : Notification), invokedObservers (notifyLoop s l n).2 = l := by
  induction l with
  | nil => intro s n; simp [notifyLoop, invokedObservers]
  | cons o rest ih =>
    intro s n
    simp only [notifyLoop]
    rw [show (Event.invoked o :: ((notifyObserver s o n).2
        ++ (notifyLoop (notifyObserver s o n).1 rest n).2))
      = [Event.invoked o] ++ ((notifyObserver s o n).2
        ++ (notifyLoop (notifyObserver s o n).1 rest n).2) from rfl]
    rw [invokedObservers_append, invokedObservers_append]
    rw [notifyObserver_no_invoked, ih]
    simp [invokedObservers]

/-- C1: a broadcast through `View.NotifyObservers` hands the notification to
exactly the observers of the snapshot copied from the live list at entry,
each exactly once and in registration (list) order, whatever the callbacks do
to the registries while the broadcast runs; in particular an observer a
callback registers during the broadcast is not in the snapshot and receives
nothing in this broadcast. -/
theorem notifyObservers_snapshot_fifo (s : SysState) (notification : Notification) :
    invokedObservers (notifyObservers s notification).2
      = listAt s.view.observerMap notification.name :=
  notifyLoop_invoked (listAt s.view.observerMap notification.name) s notification

theorem noEmptyVals_setA (m : ObsMap) (k : String) (v : List Obs)
    (hm : noEmptyVals m = true) (hv : v ≠ []) : noEmptyVals (setA m k v) = true := by
  induction m with
  | nil => simp [setA, noEmptyVals, List.isEmpty_iff, hv]
  | cons e t ih =>
    simp only [noEmptyVals, Bool.and_eq_true] at hm
    by_cases h : e.1 = k
    · simp [setA, h, noEmptyVals, List.isEmpty_iff, hv, hm.2]
    · simp [setA, h, noEmptyVals, hm.1, ih hm.2]

theorem noEmptyVals_eraseA (m : ObsMap) (k : String)
    (hm : noEmptyVals m = true) : noEmptyVals (eraseA m k) = true := by
  induction m with
  | nil => simp [eraseA, noEmptyVals]
  | cons e t ih =>
    simp only [noEmptyVals, Bool.and_eq_true] at hm
    by_cases h : e.1 = k
    · simp [eraseA, h, ih hm.2]
    · simp [eraseA, h, noEmptyVals, hm.1, ih hm.2]

theorem noEmptyVals_registerObserver (m : ObsMap) (name : String) (o : Obs)
    (hm : noEmptyVals m = true) : noEmptyVals (registerObserver m name o) = true := by
  unfold registerObserver
  cases lookupA m name with
  | none => exact noEmptyVals_setA m name [o] hm (by simp)
  | some l => exact noEmptyVals_setA m name (l ++ [o]) hm (by simp)

theorem noEmptyVals_removeObserver (m : ObsMap) (name : String) (ctx : Nat)
    (hm : noEmptyVals m = true) : noEmptyVals (removeObserver m name ctx) = true := by
  simp only [removeObserver]
  split
  · split
    · exact noEmptyVals_eraseA m name hm
    · next hlen =>
      apply noEmptyVals_setA m name _ hm
      intro hcontra
      have hdrop := (List.append_eq_nil.mp hcontra).2
      have hlen2 := congrArg List.length hdrop
      rw [List.length_drop] at hlen2
      simp only [List.length_nil] at hlen2
      omega
  · split
    · exact noEmptyVals_eraseA m name hm
    · exact hm

theorem noEmptyVals_runActs (acts : List Act) :
    ∀ (m : ObsMap), noEmptyVals m = true → noEmptyVals (runActs m acts) = true := by
  induction acts with
  | nil => intro m hm; exact hm
  | cons a rest ih =>
    intro m hm
    cases a with
    | regObs name ctx cb => exact ih _ (noEmptyVals_registerObserver m name ⟨ctx, cb⟩ hm)
    | remObs name ctx => exact ih _ (noEmptyVals_removeObserver m name ctx hm)

theorem noEmptyVals_foldl_registerObserver (interests : List String) (o : Obs) :
    ∀ (m : ObsMap), noEmptyVals m = true →
      noEmptyVals (interests.foldl (fun acc i => registerObserver acc i o) m) = true := by
  induction interests with
  | nil => intro m hm; exact hm
  | cons i rest ih =>
    intro m hm
    exact ih _ (noEmptyVals_registerObserver m i o hm)

theorem noEmptyVals_foldl_removeObserver (interests : List String) (ctx : Nat) :
    ∀ (m : ObsMap), noEmptyVals m = true →
      noEmptyVals (interests.foldl (fun acc i => removeObserver acc i ctx) m) = true := by
  induction interests with
  | nil => intro m hm; exact hm
  | cons i rest ih =>
    intro m hm
    exact ih _ (noEmptyVals_removeObserver m i ctx hm)

theorem noEmptyVals_executeCommand (s : SysState) (n : Notification)
    (hm : noEmptyVals s.view.observerMap = true) :
    noEmptyVals (executeCommand s n).1.view.observerMap = true := by
  unfold executeCommand
  cases lookupA s.ctrl.commandMap n.name with
  | none => exact hm
  | some c => exact noEmptyVals_runActs c.body _ hm

theorem noEmptyVals_notifyObserver (s : SysState) (o : Obs) (n : Notification)
    (hm : noEmptyVals s.view.observerMap = true) :
    noEmptyVals (notifyObserver s o n).1.view.observerMap = true := by
  unfold notifyObserver
  cases o.cb with
  | emit k => exact hm
  | dispatch => exact noEmptyVals_executeCommand s n hm
  | prog acts => exact noEmptyVals_runActs acts _ hm

theorem noEmptyVals_notifyLoop (l : List Obs) :
    ∀ (s : SysState) (n : Notification), noEmptyVals s.view.observerMap = true →
      noEmptyVals (notifyLoop s l n).1.view.observerMap = true := by
  induction l with
  | nil => intro s n hm; exact hm
  | cons o rest ih =>
    intro s n hm
    exact ih _ n (noEmptyVals_notifyObserver s o n hm)

theorem noEmptyVals_registerMediator (v : ViewState) (med : Mediator)
    (hm : noEmptyVals v.observerMap = true) :
    noEmptyVals (registerMediator v med).1.observerMap = true := by
  unfold registerMediator
  cases lookupA v.mediatorMap med.name with
  | some _ => exact hm
  | none =>
    exact noEmptyVals_runActs med.onReg _
      (noEmptyVals_foldl_registerObserver med.interests (mediatorObserver med) _ hm)

theorem noEmptyVals_removeMediator (v : ViewState) (name : String)
    (hm : noEmptyVals v.observerMap = true) :
    noEmptyVals (removeMediator v name).1.observerMap = true := by
  unfold removeMediator
  cases lookupA v.mediatorMap name with
  | none => exact hm
  | some med =>
    exact noEmptyVals_runActs med.onRem _
      (noEmptyVals_foldl_removeObserver med.interests med.ctx _ hm)

theorem noEmptyVals_applyOper (s : SysState) (op : Oper)
    (hm : noEmptyVals s.view.observerMap = true) :
    noEmptyVals (applyOper s op).view.observerMap = true := by
  cases op with
  | regObs name ctx cb => exact noEmptyVals_registerObserver _ name ⟨ctx, cb⟩ hm
  | remObs name ctx => exact noEmptyVals_removeObserver _ name ctx hm
  | notify n => exact noEmptyVals_notifyLoop _ s n hm
  | regMed m => exact noEmptyVals_registerMediator s.view m hm
  | remMed name => exact noEmptyVals_removeMediator s.view name hm

/-- C3: after any finite sequence of Interest Registry operations
(RegisterObserver, RemoveObserver, NotifyObservers — including whatever the
invoked callbacks do to the registries — RegisterMediator, RemoveMediator)
from the initialized empty state, every entry of the observer map holds a
nonempty observer list: no name key maps to an empty sequence. -/
theorem observerMap_never_holds_empty_list (ops : List Oper) :
    noEmptyVals (runOpers initSys ops).view.observerMap = true := by
  have h : ∀ (s : SysState), noEmptyVals s.view.observerMap = true →
      noEmptyVals (runOpers s ops).view.observerMap = true := by
    induction ops with
    | nil => intro s hm; exact hm
    | cons op rest ih =>
      intro s hm
      exact ih _ (noEmptyVals_applyOper s op hm)
  exact h initSys rfl

/-- C2 (code bug): on the two-observer list `[obsOne, obsTwo]` under name
"A", `View.RemoveObserver("A", 1)` is supposed to leave `[obsTwo]`
(`removeObserverSpec` does), but because the shortened slice is never stored
back into the map, the map's list stays at length two with the last observer
duplicated, `[obsTwo, obsTwo]`; and removing the identity of the LAST
observer (`2`) changes the map not at all, leaving the removed observer's
entry alive. -/
theorem removeObserver_duplicates_last :
    removeObserver [("A", [obsOne, obsTwo])] "A" 1 = [("A", [obsTwo, obsTwo])] ∧
    removeObserverSpec [("A", [obsOne, obsTwo])] "A" 1 = [("A", [obsTwo])] ∧
    removeObserver [("A", [obsOne, obsTwo])] "A" 2 = [("A", [obsOne, obsTwo])] ∧
    removeObserver [("A", [obsOne])] "A" 1 = [] :=
  ⟨rfl, rfl, rfl, rfl⟩

/-- C6 (code bug): `View.RemoveMediator("M")` on `viewC6` does delete the
mediator from the mediator map, fires `OnRemove` exactly once and returns the
mediator, but step (1) fails: because `RemoveObserver` never writes the
shortened slice back, the mediator's observer (last in a two-element list) is
still in the "A" list afterwards, and a later broadcast of "A" still hands it
the notification. -/
theorem removeMediator_leaves_observer_behind :
    (removeMediator viewC6 "M").1.observerMap = [("A", [otherObsC6, mediatorObserver mediatorC6])] ∧
    lookupA (removeMediator viewC6 "M").1.mediatorMap "M" = none ∧
    (removeMediator viewC6 "M").2.1 = [Event.onRemoveMed 1] ∧
    (removeMediator viewC6 "M").2.2 = some mediatorC6 ∧
    invokedObservers (notifyObservers ⟨(removeMediator viewC6 "M").1, ⟨[]⟩, ⟨[]⟩⟩ ⟨"A", 0, ""⟩).2
      = [otherObsC6, mediatorObserver mediatorC6] :=
  ⟨rfl, rfl, rfl, rfl, rfl⟩

theorem macroCommandLoop_spec (l : List Cmd) (n : Notification) :
    macroCommandLoop l n = ([], l.map (fun f => Event.cmdRun f.label n.name)) := by
  induction l with
  | nil => rfl
  | cons f rest ih => simp [macroCommandLoop, ih]

/-- C7: `MacroCommand.Execute` runs the sub-command factories in FIFO order
(the order `AddSubCommand` appended them), each handed the same notification,
and drains the list while doing so; executing the same instance again runs
zero sub-commands. -/
theorem macroCommand_fifo_drain (mc : MacroCommand) (n n2 : Notification) (c : Cmd) :
    (macroCommandExecute mc n).2 = mc.subCommands.map (fun f => Event.cmdRun f.label n.name) ∧
    (macroCommandExecute mc n).1.subCommands = [] ∧
    (macroCommandExecute (macroCommandExecute mc n).1 n2).2 = [] ∧
    (addSubCommand mc c).subCommands = mc.subCommands ++ [c] := by
  refine ⟨?_, ?_, ?_, rfl⟩
  · simp [macroCommandExecute, macroCommandLoop_spec]
  · simp [macroCommandExecute, macroCommandLoop_spec]
  · simp [macroCommandExecute, macroCommandLoop_spec]

theorem registerCommand_existing (s : SysState) (name : String) (c : Cmd)
    (h : (lookupA s.ctrl.commandMap name).isSome = true) :
    (registerCommand s name c).view = s.view ∧
    lookupA (registerCommand s name c).ctrl.commandMap name = some c := by
  unfold registerCommand
  cases hq : lookupA s.ctrl.commandMap name with
  | none => rw [hq] at h; simp at h
  | some c2 =>
    simp only [hq]
    exact ⟨trivial, lookupA_setA_self _ _ _⟩

theorem c4_scenario (name : String) (f1 f2 : Cmd) :
    (commandRunLabels (notifyObservers
        (registerCommand (removeCommand (registerCommand initSys name f1) name) name f2)
        ⟨name, 0, ""⟩).2).count f2.label = 1 := by
  simp [registerCommand, removeCommand, initSys, lookupA, setA, eraseA, registerObserver,
        removeObserver, findObsIdx, compareNotifyContext, controllerCtx, notifyObservers,
        listAt, notifyLoop, notifyObserver, executeCommand, runActs, commandRunLabels,
        invokedObservers, removeAt]

/-- C4: `Controller.RegisterCommand` touches the View only when the name has
no factory yet — re-registering under a taken name updates the factory and
leaves the View (hence the observer list) untouched — and the sequence
RegisterCommand(X, f1); RemoveCommand(X); RegisterCommand(X, f2) followed by
one broadcast of X runs a handler built by f2 exactly once. -/
theorem registerCommand_no_duplicate_observer :
    (∀ (s : SysState) (name : String) (c : Cmd),
        (lookupA s.ctrl.commandMap name).isSome = true →
        (registerCommand s name c).view = s.view ∧
        lookupA (registerCommand s name c).ctrl.commandMap name = some c) ∧
    (∀ (name : String) (f1 f2 : Cmd),
        (commandRunLabels (notifyObservers
            (registerCommand (removeCommand (registerCommand initSys name f1) name) name f2)
            ⟨name, 0, ""⟩).2).count f2.label = 1) :=
  ⟨registerCommand_existing, c4_scenario⟩

/-- Witness for C4 at a concrete input. -/
theorem registerCommand_no_duplicate_observer_witness :
    ((registerCommand sysCmdX "X" ⟨2, []⟩).view = sysCmdX.view ∧
      lookupA (registerCommand sysCmdX "X" ⟨2, []⟩).ctrl.commandMap "X" = some ⟨2, []⟩) ∧
    (commandRunLabels (notifyObservers
        (registerCommand (removeCommand (registerCommand initSys "X" ⟨1, []⟩) "X") "X" ⟨2, []⟩)
        ⟨"X", 0, ""⟩).2).count 2 = 1 :=
  ⟨registerCommand_no_duplicate_observer.1 sysCmdX "X" ⟨2, []⟩ rfl,
    registerCommand_no_duplicate_observer.2 "X" ⟨1, []⟩ ⟨2, []⟩⟩

/-- C5: the asymmetric duplicate-registration policy.  Re-registering a
command replaces the factory silently and never touches the View; Model's
`RegisterProxy` stores unconditionally — the new proxy wins — and fires the
new proxy's `OnRegister`; but `View.RegisterMediator` of a taken name is a
silent no-op: the state is unchanged (the original mediator stays
retrievable, no observers appear) and no lifecycle event fires. -/
theorem duplicate_registration_policy :
    (∀ (s : SysState) (name : String) (c : Cmd),
        (lookupA s.ctrl.commandMap name).isSome = true →
        (registerCommand s name c).view = s.view ∧
        lookupA (registerCommand s name c).ctrl.commandMap name = some c) ∧
    (∀ (m : ModelState) (p : Proxy),
        lookupA (registerProxy m p).1.proxyMap p.name = some p ∧
        (registerProxy m p).2 = [Event.onRegisterProxy p.ref]) ∧
    (∀ (v : ViewState) (med : Mediator),
        (lookupA v.mediatorMap med.name).isSome = true →
        registerMediator v med = (v, []) ∧
        retrieveMediator (registerMediator v med).1 med.name = retrieveMediator v med.name) := by
  refine ⟨registerCommand_existing, ?_, ?_⟩
  · intro m p
    exact ⟨lookupA_setA_self _ _ _, rfl⟩
  · intro v med h
    unfold registerMediator
    cases hq : lookupA v.mediatorMap med.name with
    | none => rw [hq] at h; simp at h
    | some m0 => exact ⟨rfl, rfl⟩

/-- Witness for C5 at concrete inputs. -/
theorem duplicate_registration_policy_witness :
    ((registerCommand sysCmdX "X" ⟨3, []⟩).view = sysCmdX.view ∧
      lookupA (registerCommand sysCmdX "X" ⟨3, []⟩).ctrl.commandMap "X" = some ⟨3, []⟩) ∧
    (lookupA (registerProxy ⟨[("P", ⟨"P", 7⟩)]⟩ ⟨"P", 8⟩).1.proxyMap "P" = some ⟨"P", 8⟩ ∧
      (registerProxy ⟨[("P", ⟨"P", 7⟩)]⟩ ⟨"P", 8⟩).2 = [Event.onRegisterProxy 8]) ∧
    (registerMediator viewWithM1 mediatorM2 = (viewWithM1, []) ∧
      retrieveMediator (registerMediator viewWithM1 mediatorM2).1 "M"
        = retrieveMediator viewWithM1 "M") :=
  ⟨duplicate_registration_policy.1 sysCmdX "X" ⟨3, []⟩ rfl,
    duplicate_registration_policy.2.1 ⟨[("P", ⟨"P", 7⟩)]⟩ ⟨"P", 8⟩,
    duplicate_registration_policy.2.2 viewWithM1 mediatorM2 rfl⟩

theorem findObsIdx_spec (c : Nat) :
    ∀ (l : List Obs) (i : Nat), findObsIdx l c = some i →
      ∃ h : i < l.length, compareNotifyContext (l.get ⟨i, h⟩) c = true := by
  intro l
  induction l with
  | nil => intro i h; simp [findObsIdx] at h
  | cons o t ih =>
    intro i h
    by_cases hc : compareNotifyContext o c
    · simp only [findObsIdx, hc, if_true, Option.some.injEq] at h
      subst h
      exact ⟨by simp, by simpa using hc⟩
    · rw [show findObsIdx (o :: t) c = (findObsIdx t c).map (fun i => i + 1) by
        simp [findObsIdx, hc]] at h
      cases hm : findObsIdx t c with
      | none => rw [hm] at h; simp at h
      | some j =>
        rw [hm] at h
        simp only [Option.map_some', Option.some.injEq] at h
        obtain ⟨hlt, hp⟩ := ih j hm
        subst h
        exact ⟨by simpa using Nat.succ_lt_succ hlt, by simpa using hp⟩

theorem mem_removeAt :
    ∀ (l : List Obs) (i : Nat) (o : Obs), o ∈ l →
      (∀ (h : i < l.length), o ≠ l.get ⟨i, h⟩) → o ∈ removeAt l i := by
  intro l
  induction l with
  | nil => intro i o ho _; simp at ho
  | cons x t ih =>
    intro i o ho hne
    cases i with
    | zero =>
      rcases List.mem_cons.mp ho with h1 | h1
      · exact absurd h1 (by simpa using hne (by simp))
      · simpa [removeAt] using h1
    | succ j =>
      rcases List.mem_cons.mp ho with h1 | h1
      · simp [removeAt, h1]
      · have hmem : o ∈ removeAt t j := by
          apply ih j o h1
          intro h hoeq
          have := hne (by simpa using Nat.succ_lt_succ h)
          simp only [List.get_cons_succ] at this
          exact this hoeq
        simp [removeAt, hmem]

theorem listAt_setA_self (m : ObsMap) (k : String) (v : List Obs) :
    listAt (setA m k v) k = v := by
  simp [listAt, lookupA_setA_self]

theorem removeObserver_keeps_other_identity (mp : ObsMap) (name : String) (o : Obs) (c2 : Nat)
    (hne : o.ctx ≠ c2) (hmem : o ∈ listAt mp name) :
    o ∈ listAt (removeObserver mp name c2) name := by
  have hmem2 : o ∈ (lookupA mp name).getD [] := hmem
  simp only [removeObserver]
  split
  · next index hidx =>
    obtain ⟨hlt, hp⟩ := findObsIdx_spec c2 _ index hidx
    have hctx : (((lookupA mp name).getD []).get ⟨index, hlt⟩).ctx = c2 := by
      have := hp
      simp only [compareNotifyContext, beq_iff_eq] at this
      exact this.symm
    split
    · next hlen =>
      exfalso
      have hlone : ((lookupA mp name).getD []).length = 1 := by omega
      obtain ⟨a, ha⟩ := List.length_eq_one.mp hlone
      rw [ha] at hmem2
      have hoa : o = a := by simpa using hmem2
      have hmemget := List.get_mem ((lookupA mp name).getD []) index hlt
      have hga : ((lookupA mp name).getD []).get ⟨index, hlt⟩ = a := by
        have h2 : ((lookupA mp name).getD []).get ⟨index, hlt⟩ ∈ [a] := by
          rw [← ha]
          exact hmemget
        simpa using h2
      rw [hga] at hctx
      rw [hoa] at hne
      exact hne hctx
    · next hlen =>
      rw [listAt_setA_self]
      apply List.mem_append_left
      apply mem_removeAt _ _ _ hmem2
      intro h hoeq
      apply hne
      have : ((lookupA mp name).getD []).get ⟨index, h⟩
          = ((lookupA mp name).getD []).get ⟨index, hlt⟩ := rfl
      rw [hoeq, this, hctx]
  · split
    · next hlen =>
      exfalso
      rw [List.length_eq_zero.mp hlen] at hmem2
      simp at hmem2
    · exact hmem

/-- C8: `Observer.CompareNotifyContext` compares the stored reference
(`object == self.Context`, Go pointer identity for pointer-held listeners),
not the listeners' data: for two distinct listener objects — data equal or
not — comparing one listener's observer against the other listener's
reference is false, and `View.RemoveObserver` with one listener's identity
never removes an observer whose identity is a different listener. -/
theorem compareNotifyContext_reference_equality :
    (∀ (m1 m2 : Mediator), m1.ctx ≠ m2.ctx →
        compareNotifyContext (mediatorObserver m1) m2.ctx = false) ∧
    (∀ (mp : ObsMap) (name : String) (o : Obs) (c2 : Nat),
        o.ctx ≠ c2 → o ∈ listAt mp name → o ∈ listAt (removeObserver mp name c2) name) := by
  constructor
  · intro m1 m2 h
    simp only [compareNotifyContext, mediatorObserver, beq_eq_false_iff_ne, ne_eq]
    exact fun hh => h hh.symm
  · exact removeObserver_keeps_other_identity

/-- Witness for C8: the twins share all data; comparing `twinA`'s observer
against `twinB` is false, and removing by `twinB`'s identity leaves `twinA`'s
observer registered. -/
theorem compareNotifyContext_reference_equality_witness :
    compareNotifyContext (mediatorObserver twinA) twinB.ctx = false ∧
    mediatorObserver twinA ∈
      listAt (removeObserver [("A", [mediatorObserver twinA, mediatorObserver twinB])]
        "A" twinB.ctx) "A" :=
  ⟨compareNotifyContext_reference_equality.1 twinA twinB (by decide),
    compareNotifyContext_reference_equality.2
      [("A", [mediatorObserver twinA, mediatorObserver twinB])] "A"
      (mediatorObserver twinA) twinB.ctx (by decide) (List.mem_cons_self _ _)⟩

theorem lockDepthOk_calls (l : List Obs) :
    lockDepthOk 0 (l.map (fun _ => LockEv.callbackCall "Observer.NotifyObserver")) = true := by
  induction l with
  | nil => rfl
  | cons o rest ih => simpa [lockDepthOk] using ih

/-- C9 counterexample: it is false that no registry operation invokes a
callback under its registry's lock — `Controller.ExecuteCommand` runs the
command instance's `Execute` between `commandMapMutex.RLock` and the deferred
`RUnlock`, as its lock trace on `sysC9` shows. -/
theorem callback_under_lock_counterexample :
    ¬ (∀ (s : SysState) (n : Notification),
        noCallbackUnderLock (notifyObserversLockTrace s n) = true ∧
        noCallbackUnderLock (executeCommandLockTrace s n) = true) := by
  intro h
  have h2 := (h sysC9 noteC9).2
  have h3 : noCallbackUnderLock (executeCommandLockTrace sysC9 noteC9) = false := rfl
  rw [h3] at h2
  exact Bool.false_ne_true h2

/-- C9 amended: `View.NotifyObservers` copies the observer list under the
read lock and releases it before invoking any callback, so its lock trace
never runs a callback under a lock; but `Controller.ExecuteCommand` holds the
command map's read lock across the command's `Execute` — whenever a factory
is registered for the notification's name, its trace is exactly acquire,
callback, release. -/
theorem lock_discipline_amended :
    (∀ (s : SysState) (n : Notification),
        noCallbackUnderLock (notifyObserversLockTrace s n) = true) ∧
    (∀ (s : SysState) (n : Notification) (c : Cmd),
        lookupA s.ctrl.commandMap n.name = some c →
        executeCommandLockTrace s n =
          [LockEv.acqR "commandMapMutex", LockEv.callbackCall "ICommand.Execute",
            LockEv.relR "commandMapMutex"]) := by
  constructor
  · intro s n
    simp only [notifyObserversLockTrace, noCallbackUnderLock, lockDepthOk]
    exact lockDepthOk_calls _
  · intro s n c h
    simp [executeCommandLockTrace, h]

/-- Witness for C9's amended statement at a concrete input. -/
theorem lock_discipline_amended_witness :
    noCallbackUnderLock (notifyObserversLockTrace sysC9 noteC9) = true ∧
    executeCommandLockTrace sysC9 noteC9 =
      [LockEv.acqR "commandMapMutex", LockEv.callbackCall "ICommand.Execute",
        LockEv.relR "commandMapMutex"] :=
  ⟨lock_discipline_amended.1 sysC9 noteC9,
    lock_discipline_amended.2 sysC9 noteC9 ⟨7, []⟩ rfl⟩

theorem registerMediator_fields (v : ViewState) (med : Mediator)
    (hfree : lookupA v.mediatorMap med.name = none) :
    (registerMediator v med).1 =
      ⟨setA v.mediatorMap med.name med,
        runActs (med.interests.foldl
          (fun acc i => registerObserver acc i (mediatorObserver med)) v.observerMap)
          med.onReg⟩ := by
  simp only [registerMediator, hfree]

theorem setMediatorInterests_found (v : ViewState) (name : String) (m : Mediator)
    (ints : List String) (h : lookupA v.mediatorMap name = some m) :
    setMediatorInterests v name ints =
      ⟨setA v.mediatorMap name { m with interests := ints }, v.observerMap⟩ := by
  simp only [setMediatorInterests, h]

theorem removeMediator_found (v : ViewState) (name : String) (m : Mediator)
    (h : lookupA v.mediatorMap name = some m) :
    removeMediator v name =
      (⟨eraseA v.mediatorMap name,
        runActs (m.interests.foldl
          (fun acc i => removeObserver acc i m.ctx) v.observerMap) m.onRem⟩,
        [Event.onRemoveMed m.ctx], some m) := by
  simp only [removeMediator, h]

theorem mem_listAt_registerObserver_self (m : ObsMap) (name : String) (o : Obs) :
    o ∈ listAt (registerObserver m name o) name := by
  unfold registerObserver
  cases lookupA m name with
  | none => rw [listAt_setA_self]; simp
  | some l => rw [listAt_setA_self]; simp

theorem mem_listAt_registerObserver (m : ObsMap) (name i : String) (o o2 : Obs)
    (h : o ∈ listAt m name) : o ∈ listAt (registerObserver m i o2) name := by
  unfold registerObserver
  by_cases hin : i = name
  · subst hin
    cases hq : lookupA m i with
    | none =>
      exfalso
      simp [listAt, hq] at h
    | some l =>
      rw [listAt_setA_self]
      apply List.mem_append_left
      simpa [listAt, hq] using h
  · have hne : name ≠ i := fun hh => hin hh.symm
    cases lookupA m i with
    | none => simp [listAt, lookupA_setA_ne _ _ _ _ hne]; simpa [listAt] using h
    | some l => simp [listAt, lookupA_setA_ne _ _ _ _ hne]; simpa [listAt] using h

theorem mem_listAt_foldl_registerObserver_preserve (ints : List String) (o o2 : Obs)
    (name : String) :
    ∀ (m : ObsMap), o ∈ listAt m name →
      o ∈ listAt (ints.foldl (fun acc i => registerObserver acc i o2) m) name := by
  induction ints with
  | nil => intro m h; exact h
  | cons i rest ih =>
    intro m h
    exact ih _ (mem_listAt_registerObserver m name i o o2 h)

theorem mem_listAt_foldl_registerObserver (ints : List String) (o : Obs) (name : String)
    (hn : name ∈ ints) :
    ∀ (m : ObsMap), o ∈ listAt (ints.foldl (fun acc i => registerObserver acc i o) m) name := by
  induction ints with
  | nil => exact absurd hn (by simp)
  | cons i rest ih =>
    intro m
    rcases List.mem_cons.mp hn with h1 | h1
    · subst h1
      by_cases h2 : name ∈ rest
      · exact (ih h2) _
      · exact mem_listAt_foldl_registerObserver_preserve rest o o name _
          (mem_listAt_registerObserver_self m name o)
    · exact (ih h1) _

theorem listAt_removeObserver_ne (m : ObsMap) (i name : String) (c : Nat)
    (h : name ≠ i) : listAt (removeObserver m i c) name = listAt m name := by
  simp only [removeObserver]
  split
  · split
    · simp [listAt, lookupA_eraseA_ne _ _ _ h]
    · simp [listAt, lookupA_setA_ne _ _ _ _ h]
  · split
    · simp [listAt, lookupA_eraseA_ne _ _ _ h]
    · rfl

theorem listAt_foldl_removeObserver_ne (ints : List String) (c : Nat) (name : String)
    (h : ∀ i ∈ ints, name ≠ i) :
    ∀ (m : ObsMap),
      listAt (ints.foldl (fun acc i => removeObserver acc i c) m) name = listAt m name := by
  induction ints with
  | nil => intro m; rfl
  | cons i rest ih =>
    intro m
    rw [List.foldl_cons, ih (fun j hj => h j (List.mem_cons_of_mem i hj)),
      listAt_removeObserver_ne m i name c (h i (List.mem_cons_self i rest))]

theorem invoked_event_of_mem (evs : List Event) (o : Obs)
    (h : o ∈ invokedObservers evs) : Event.invoked o ∈ evs := by
  unfold invokedObservers at h
  obtain ⟨e, he, hfe⟩ := List.mem_filterMap.mp h
  cases e with
  | invoked o2 =>
    simp only [Option.some.injEq] at hfe
    rw [← hfe]
    exact he
  | cmdRun a b => simp at hfe
  | emitted a b => simp at hfe
  | onRegisterMed a => simp at hfe
  | onRemoveMed a => simp at hfe
  | onRegisterProxy a => simp at hfe

/-- C10: `View.RemoveMediator` asks the stored mediator for
`ListNotificationInterests` again at removal time rather than replaying the
registration-time list: if the reported interests changed in between
(modelled by `setMediatorInterests`), the observer registered under a name
`n` that is in the registration-time list but not in the removal-time list
survives the removal, and a later broadcast of `n` still hands that observer
the notification.  (Lifecycle programs are empty so that only the registry
mechanics act.) -/
theorem removeMediator_uses_current_interests
    (v : ViewState) (med : Mediator) (newInterests : List String) (n : String)
    (hfree : lookupA v.mediatorMap med.name = none)
    (hreg : med.onReg = []) (hrem : med.onRem = [])
    (hn : n ∈ med.interests) (hn2 : n ∉ newInterests) :
    mediatorObserver med ∈
      listAt (removeMediator (setMediatorInterests (registerMediator v med).1
        med.name newInterests) med.name).1.observerMap n ∧
    Event.invoked (mediatorObserver med) ∈
      (notifyObservers ⟨(removeMediator (setMediatorInterests (registerMediator v med).1
        med.name newInterests) med.name).1, ⟨[]⟩, ⟨[]⟩⟩ ⟨n, 0, ""⟩).2 := by
  have h1 := registerMediator_fields v med hfree
  rw [hreg] at h1
  simp only [runActs] at h1
  have h2 := setMediatorInterests_found (registerMediator v med).1 med.name med newInterests
    (by rw [h1]; exact lookupA_setA_self _ _ _)
  have h2om : (setMediatorInterests (registerMediator v med).1 med.name newInterests).observerMap
      = (registerMediator v med).1.observerMap := by
    rw [h2]
  have h3 := removeMediator_found
    (setMediatorInterests (registerMediator v med).1 med.name newInterests) med.name
    { med with interests := newInterests }
    (by rw [h2]; exact lookupA_setA_self _ _ _)
  have hfinal : (removeMediator (setMediatorInterests (registerMediator v med).1
        med.name newInterests) med.name).1.observerMap
      = newInterests.foldl (fun acc i => removeObserver acc i med.ctx)
          (med.interests.foldl
            (fun acc i => registerObserver acc i (mediatorObserver med)) v.observerMap) := by
    rw [h3]
    dsimp only
    rw [hrem]
    simp only [runActs]
    rw [h2om, h1]
  have hmain : mediatorObserver med ∈
      listAt (removeMediator (setMediatorInterests (registerMediator v med).1
        med.name newInterests) med.name).1.observerMap n := by
    rw [hfinal]
    rw [listAt_foldl_removeObserver_ne newInterests med.ctx n
      (fun i hi hni => hn2 (hni ▸ hi)) _]
    exact mem_listAt_foldl_registerObserver med.interests (mediatorObserver med) n hn _
  refine ⟨hmain, ?_⟩
  apply invoked_event_of_mem
  simp only [notifyObservers]
  rw [notifyLoop_invoked]
  exact hmain

/-- Witness for C10 at a concrete input. -/
theorem removeMediator_uses_current_interests_witness :
    mediatorObserver medC10 ∈
      listAt (removeMediator (setMediatorInterests (registerMediator ⟨[], []⟩ medC10).1
        "M" ["B"]) "M").1.observerMap "A" ∧
    Event.invoked (mediatorObserver medC10) ∈
      (notifyObservers ⟨(removeMediator (setMediatorInterests (registerMediator ⟨[], []⟩ medC10).1
        "M" ["B"]) "M").1, ⟨[]⟩, ⟨[]⟩⟩ ⟨"A", 0, ""⟩).2 :=
  removeMediator_uses_current_interests ⟨[], []⟩ medC10 ["B"] "A" rfl rfl rfl
    (List.mem_singleton.mpr rfl) (by decide)

end PureMVC
